import Mathlib

set_option autoImplicit false

/-!
Shallow embedding of the construction-project synchronization core of the
nordhus.site repository (scripts/workflows/construction_workflow.py,
scripts/utils/git_operations.py, scripts/interfaces/photo_client_interface.py,
scripts/clients/imgur_client.py).

External collaborators (photo service, GitHub API, subprocess git, the clock,
the json and os standard-library modules) are modeled as oracle environments:
each external call is a field of an environment record giving that call's
outcome.  Python exceptions are modeled with `Except`; a raised exception that
the embedded code does not catch propagates as `Except.error`.  Python dicts
are modeled as association lists with insert-or-overwrite semantics that
preserve insertion order, exactly like CPython dicts.
-/

namespace Nordhus


/-! ## Association lists: the model of Python dicts -/

/-- Python dict with string keys, as an insertion-ordered association list. -/
abbrev AList (α : Type) : Type := List (String × α)

/-- Python `d[k]` lookup (returning `none` when the key is absent). -/
def alookup {α : Type} (k : String) : AList α → Option α
  | [] => none
  | (k2, v) :: t => if k2 = k then some v else alookup k t

/-- Python `d[k] = v`: overwrite in place when the key exists, append otherwise. -/
def ainsert {α : Type} (k : String) (v : α) : AList α → AList α
  | [] => [(k, v)]
  | (k2, v2) :: t => if k2 = k then (k2, v) :: t else (k2, v2) :: ainsert k v t

/-- Python `d[k] = f(d[k])` applied to a key that may or may not be present. -/
def aupdate {α : Type} (k : String) (f : α → α) : AList α → AList α
  | [] => []
  | (k2, v) :: t => if k2 = k then (k2, f v) :: t else (k2, v) :: aupdate k f t

/-- Python `d.keys()`. -/
def akeys {α : Type} (l : AList α) : List String := l.map Prod.fst

/-! ## Data model (spec section 3; construction_workflow.py state layout) -/

/-- One image dictionary as returned by `PhotoClient.get_project_images`:
keys id, title, url, filename, and the metadata datetime field used by the
hasher. -/
structure Image where
  id : String
  title : String
  url : String
  filename : String
  mdatetime : String
  deriving DecidableEq

/-- One entry of a project's `images` map in the persisted state
(construction_workflow.py, run, the per-image state update). -/
structure ImageRecord where
  image_id : String
  title : String
  filename : String
  added_at : String
  deriving DecidableEq

/-- One entry of `state["projects"]` (construction_workflow.py, run, the
new-project initialization). -/
structure ProjectState where
  project_id : String
  project_title : String
  issue_number : Option Nat
  branch_name : String
  created_at : String
  images : AList ImageRecord
  deriving DecidableEq

/-- The persisted reconciliation state (`SyncState` in the spec). -/
structure SyncState where
  projects : AList ProjectState
  last_scan : Option String
  deriving DecidableEq

/-- One project dictionary as returned by
`PhotoClient.get_construction_projects`. -/
structure Project where
  id : String
  title : String
  project_name : String
  url : String
  deriving DecidableEq

/-- Python exceptions relevant to the workflow: `PermissionError` (raised by
`GitHubManager._api_request` on HTTP 403 and caught selectively) and every
other exception (`Exception`, `subprocess.CalledProcessError`, ...). -/
inductive Exc where
  | permission (msg : String)
  | general (msg : String)
  deriving DecidableEq

/-- Observable side operations performed during a run, recorded in order. -/
inductive Effect where
  | listImagesE (project_id : String)
  | branchE (branch : String)
  | mkdirE (dir : String)
  | downloadE (url : String) (dir : String) (filename : String)
  | writeMetadataE (dir : String)
  | commitE (dir : String) (msg : String)
  | createIssueE (project_name : String)
  | commentE (issue : Nat) (project_name : String)
  deriving DecidableEq

/-- ProjectExtractor.get_branch_name (photo_client_interface.py): when no
date is passed, the CURRENT date (`datetime.now().strftime("%Y-%m-%d")`) is
used, so the result depends on the day the call is made. -/
def get_branch_name (project_name : String) (dateStr : String) : String :=
  "project/" ++ dateStr ++ "-" ++ project_name

/-- Oracle environment for one reconciliation run: outcomes of every external
call made by `ConstructionWorkflow.run` and `sync_project_photos`. -/
structure Env where
  /-- photo_client.authenticate() -/
  authOk : Bool
  /-- photo_client.get_construction_projects(), which may raise -/
  projectsList : Except Exc (List Project)
  /-- photo_client.get_project_images(project_id), which may raise -/
  images : String → Except Exc (List Image)
  /-- project_hasher.generate_image_hash (pluggable, pure) -/
  imageHash : Image → String
  /-- datetime.now().strftime("%Y-%m-%d") during this run -/
  today : String
  /-- datetime.now().isoformat() during this run -/
  now : String
  /-- GitManager.create_or_switch_branch result (it returns a Bool and never
  raises: every CalledProcessError is caught inside it) -/
  branchOk : String → Bool
  /-- photo_client.download_image(url, dir, filename): `none` on failure (the
  client catches its own exceptions and returns None) -/
  download : String → String → String → Option String
  /-- whether the git add/commit subprocess pair inside
  GitManager.commit_changes succeeds for (project_dir, commit_message) -/
  commitOk : String → String → Bool
  /-- github.create_issue(...): issue number, or a raised exception -/
  createIssue : String → Except Exc Nat
  /-- github.add_issue_comment(issue_number, ...) -/
  addComment : Nat → Except Exc Unit

/-! ## ConstructionWorkflow.sync_project_photos (construction_workflow.py
lines 238-308), translated statement by statement. -/

/-- The download loop of sync_project_photos: images whose url is falsy are
skipped without any call; otherwise download_image is called and only a
non-None result is collected. Returns (downloaded_files, effects). -/
def downloadLoop (env : Env) (project_dir : String) :
    List (Image × String) → List String × List Effect
  | [] => ([], [])
  | (img, _) :: rest =>
    let (fs, es) := downloadLoop env project_dir rest
    if img.url = "" then (fs, es)
    else
      match env.download img.url project_dir img.filename with
      | some p => (p :: fs, Effect.downloadE img.url project_dir img.filename :: es)
      | none => (fs, Effect.downloadE img.url project_dir img.filename :: es)

/-- The change-detection step of sync_project_photos: the list comprehension
`[img for img in current_images if img["hash"] not in existing_hashes]`,
where each image has been paired with its hash. -/
def newImagesOf (hashed : List (Image × String)) (existing_hashes : List String) :
    List (Image × String) :=
  hashed.filter (fun ih => decide (ih.2 ∉ existing_hashes))

/-- ConstructionWorkflow.sync_project_photos.  Returns
`((new_images, total_count), effects)`; a raised exception (from the image
listing or from the commit step) propagates to the caller uncaught. -/
def sync_project_photos (env : Env) (project : Project)
    (existing_images : AList ImageRecord) :
    Except Exc ((List (Image × String) × Nat) × List Effect) :=
  match env.images project.id with
  | .error e => .error e
  | .ok current_images =>
    let hashed := current_images.map (fun img => (img, env.imageHash img))
    let existing_hashes := akeys existing_images
    let new_images := newImagesOf hashed existing_hashes
    if new_images.isEmpty then
      .ok (([], current_images.length), [Effect.listImagesE project.id])
    else
      let branch_name := get_branch_name project.project_name env.today
      if env.branchOk branch_name = false then
        .ok (([], current_images.length),
          [Effect.listImagesE project.id, Effect.branchE branch_name])
      else
        let project_dir := "assets/images/" ++ env.today ++ "-" ++ project.project_name
        let (downloaded_files, dlEffs) := downloadLoop env project_dir new_images
        let baseEffs := [Effect.listImagesE project.id, Effect.branchE branch_name,
          Effect.mkdirE project_dir] ++ dlEffs
        if downloaded_files.isEmpty then
          .ok ((new_images, current_images.length), baseEffs)
        else
          let commit_msg :=
            "Sync " ++ toString downloaded_files.length ++ " new photos: "
              ++ project.project_name
          if env.commitOk project_dir commit_msg then
            .ok ((new_images, current_images.length),
              baseEffs ++ [Effect.writeMetadataE project_dir,
                Effect.commitE project_dir commit_msg])
          else
            .error (Exc.general ("CalledProcessError: git commit: " ++ commit_msg))

/-! ## The per-project loop body of ConstructionWorkflow.run
(construction_workflow.py lines 332-388). -/

/-- Python truthiness of `state[...].get("issue_number")`. -/
def issueTruthy : Option Nat → Bool
  | some n => n != 0
  | none => false

/-- The ImageRecord written by run for one newly detected image. -/
def recordOf (env : Env) (img : Image) : ImageRecord :=
  { image_id := img.id, title := img.title, filename := img.filename,
    added_at := env.now }

/-- The per-image state update loop of run:
`state["projects"][name]["images"][image["hash"]] = {...}` for each new image. -/
def recImages (env : Env) (new_images : List (Image × String))
    (images : AList ImageRecord) : AList ImageRecord :=
  new_images.foldl (fun acc ih => ainsert ih.2 (recordOf env ih.1) acc) images

/-- One iteration of the per-project loop in ConstructionWorkflow.run: takes
the in-memory state and the `current_projects` accumulator, returns their
updated versions together with the effects performed.  Only `PermissionError`
from the issue-tracker calls is caught; every other exception propagates. -/
def process_project (env : Env) (state : SyncState)
    (current_projects : AList ProjectState) (project : Project) :
    Except Exc (SyncState × AList ProjectState × List Effect) :=
  let name := project.project_name
  let created :=
    match alookup name state.projects with
    | some _ => Except.ok (state, ([] : List Effect))
    | none =>
      match env.createIssue name with
      | .ok n =>
        let ps : ProjectState :=
          { project_id := project.id, project_title := project.title,
            issue_number := some n,
            branch_name := get_branch_name name env.today,
            created_at := env.now, images := [] }
        Except.ok ({ state with projects := ainsert name ps state.projects },
          [Effect.createIssueE name])
      | .error (Exc.permission _) =>
        let ps : ProjectState :=
          { project_id := project.id, project_title := project.title,
            issue_number := none,
            branch_name := get_branch_name name env.today,
            created_at := env.now, images := [] }
        Except.ok ({ state with projects := ainsert name ps state.projects },
          [Effect.createIssueE name])
      | .error e => Except.error e
  match created with
  | .error e => .error e
  | .ok (state1, effs0) =>
    let existing_images :=
      match alookup name state1.projects with
      | some ps => ps.images
      | none => []
    match sync_project_photos env project existing_images with
    | .error e => .error e
    | .ok ((new_images, _total), effs1) =>
      let projs2 := aupdate name
        (fun ps => { ps with images := recImages env new_images ps.images })
        state1.projects
      let state2 : SyncState := { state1 with projects := projs2 }
      match alookup name state2.projects with
      | none => .error (Exc.general "KeyError")
      | some psNow =>
        let commented :=
          if !new_images.isEmpty && issueTruthy psNow.issue_number then
            match psNow.issue_number with
            | some n =>
              match env.addComment n with
              | .ok _ => Except.ok [Effect.commentE n name]
              | .error (Exc.permission _) => Except.ok [Effect.commentE n name]
              | .error e => Except.error e
            | none => Except.ok ([] : List Effect)
          else Except.ok ([] : List Effect)
        match commented with
        | .error e => .error e
        | .ok effs2 =>
          .ok (state2, ainsert name psNow current_projects, effs0 ++ effs1 ++ effs2)

/-- Result of one reconciliation run: the returned boolean, the state passed
to save_state (none when save_state was never reached), and the effects. -/
structure RunResult where
  ok : Bool
  saved : Option SyncState
  effects : List Effect
  deriving DecidableEq

/-- The per-project loop of run, over the listing order. -/
def runGo (env : Env) : SyncState → AList ProjectState → List Project →
    Except Exc (AList ProjectState × List Effect)
  | _, current_projects, [] => .ok (current_projects, [])
  | state, current_projects, p :: rest =>
    match process_project env state current_projects p with
    | .error e => .error e
    | .ok (state2, current2, effs) =>
      match runGo env state2 current2 rest with
      | .error e => .error e
      | .ok (currentF, effsRest) => .ok (currentF, effs ++ effsRest)

/-- ConstructionWorkflow.run (construction_workflow.py lines 310-396),
applied to the loaded state.  Authentication failure and a raised
get_construction_projects are the only caught failures at this level; any
exception escaping the per-project loop propagates (`Except.error`), in which
case save_state is never reached. -/
def run (env : Env) (loaded : SyncState) : Except Exc RunResult :=
  if env.authOk = false then
    .ok { ok := false, saved := none, effects := [] }
  else
    match env.projectsList with
    | .error _ => .ok { ok := false, saved := none, effects := [] }
    | .ok projs =>
      match runGo env loaded [] projs with
      | .error e => .error e
      | .ok (current_projects, effs) =>
        .ok { ok := true,
              saved := some { projects := current_projects, last_scan := some env.now },
              effects := effs }

/-! ## GitManager.create_or_switch_branch (construction_workflow.py lines
27-77): the three-way branch resolution state machine over a subprocess
oracle.  The two listing commands run with `check=False` and cannot raise;
every other command runs with `check=True` and raises CalledProcessError on
failure.  The only handled failure is the inner `git checkout main`, whose
CalledProcessError triggers the fetch-from-origin fallback; every other
CalledProcessError reaches the outer handler, which returns False. -/

/-- The git commands issued by create_or_switch_branch. -/
inductive GitCmd where
  | branchList (branch : String)
  | checkout (branch : String)
  | lsRemote (branch : String)
  | fetchOrigin (branch : String)
  | checkoutTrack (branch : String)
  | checkoutMain
  | fetchMain
  | checkoutMainTrack
  | pullMain
  | checkoutNew (branch : String)
  deriving DecidableEq

/-- Subprocess oracle for one create_or_switch_branch call: the stdout of the
two listing commands and the success of each check=True command. -/
structure GitEnv where
  branchListStdout : String
  lsRemoteStdout : String
  checkoutOk : Bool
  fetchOk : Bool
  checkoutTrackOk : Bool
  checkoutMainOk : Bool
  fetchMainOk : Bool
  checkoutMainTrackOk : Bool
  pullMainOk : Bool
  checkoutNewOk : Bool

/-- Python str.strip() on the whitespace characters relevant here. -/
def pyStrip (s : String) : String :=
  ⟨((s.data.dropWhile Char.isWhitespace).reverse.dropWhile Char.isWhitespace).reverse⟩

/-- `startsWithChars l n` is true when `n` is an initial segment of `l`. -/
def startsWithChars : List Char → List Char → Bool
  | _, [] => true
  | [], _ :: _ => false
  | c :: t, d :: m => c = d && startsWithChars t m

/-- Worker for the substring test: try every suffix of the haystack. -/
def strContainsGo : List Char → List Char → Bool
  | [], n => n.isEmpty
  | c :: t, n => startsWithChars (c :: t) n || strContainsGo t n

/-- Python substring test `needle in hay` on strings. -/
def strContains (hay needle : String) : Bool :=
  strContainsGo hay.data needle.data

/-- GitManager.create_or_switch_branch: returns the Python result together
with the trace of executed git commands, each paired with whether it
succeeded (listing commands run with check=False are recorded as succeeded;
their outcome is only inspected through stdout). -/
def create_or_switch_branch (env : GitEnv) (branch_name : String) :
    Bool × List (GitCmd × Bool) :=
  let t0 := [(GitCmd.branchList branch_name, true)]
  if strContains env.branchListStdout branch_name then
    (env.checkoutOk, t0 ++ [(GitCmd.checkout branch_name, env.checkoutOk)])
  else
    let t1 := t0 ++ [(GitCmd.lsRemote branch_name, true)]
    if pyStrip env.lsRemoteStdout ≠ "" then
      if env.fetchOk = false then
        (false, t1 ++ [(GitCmd.fetchOrigin branch_name, false)])
      else if env.checkoutTrackOk = false then
        (false, t1 ++ [(GitCmd.fetchOrigin branch_name, true),
          (GitCmd.checkoutTrack branch_name, false)])
      else
        (true, t1 ++ [(GitCmd.fetchOrigin branch_name, true),
          (GitCmd.checkoutTrack branch_name, true)])
    else
      if env.checkoutMainOk then
        let t2 := t1 ++ [(GitCmd.checkoutMain, true)]
        if env.pullMainOk = false then
          (false, t2 ++ [(GitCmd.pullMain, false)])
        else if env.checkoutNewOk = false then
          (false, t2 ++ [(GitCmd.pullMain, true), (GitCmd.checkoutNew branch_name, false)])
        else
          (true, t2 ++ [(GitCmd.pullMain, true), (GitCmd.checkoutNew branch_name, true)])
      else
        let t2 := t1 ++ [(GitCmd.checkoutMain, false)]
        if env.fetchMainOk = false then
          (false, t2 ++ [(GitCmd.fetchMain, false)])
        else if env.checkoutMainTrackOk = false then
          (false, t2 ++ [(GitCmd.fetchMain, true), (GitCmd.checkoutMainTrack, false)])
        else
          let t3 := t2 ++ [(GitCmd.fetchMain, true), (GitCmd.checkoutMainTrack, true)]
          if env.pullMainOk = false then
            (false, t3 ++ [(GitCmd.pullMain, false)])
          else if env.checkoutNewOk = false then
            (false, t3 ++ [(GitCmd.pullMain, true), (GitCmd.checkoutNew branch_name, false)])
          else
            (true, t3 ++ [(GitCmd.pullMain, true), (GitCmd.checkoutNew branch_name, true)])

/-! ## commit_changes (construction_workflow.py lines 79-93 and
git_operations.py lines 121-134). -/

/-- A subprocess.CalledProcessError carrying the failed command. -/
inductive CpError where
  | calledProcessError (cmd : String)
  deriving DecidableEq

/-- Outcomes of the subprocess calls inside a commit_changes invocation. -/
structure CommitEnv where
  configNameOk : Bool
  configEmailOk : Bool
  addOk : Bool
  commitOk : Bool

/-- GitManager.commit_changes: config, add and commit all run with check=True
inside one try block whose handler re-raises, so the first failing command's
CalledProcessError propagates; on success it returns True. -/
def GitManager_commit_changes (env : CommitEnv) : Except CpError Bool :=
  if env.configNameOk = false then .error (.calledProcessError "git config user.name")
  else if env.configEmailOk = false then .error (.calledProcessError "git config user.email")
  else if env.addOk = false then .error (.calledProcessError "git add")
  else if env.commitOk = false then .error (.calledProcessError "git commit")
  else .ok true

/-- GitOperations.commit_changes: ensure_git_config swallows its own config
failures (logging a warning), then add and commit raise on failure and the
handler re-raises. -/
def GitOperations_commit_changes (env : CommitEnv) (_ensure_config : Bool) :
    Except CpError Bool :=
  if env.addOk = false then .error (.calledProcessError "git add")
  else if env.commitOk = false then .error (.calledProcessError "git commit")
  else .ok true

/-! ## ImgurHasher.generate_image_hash (imgur_client.py lines 363-369).
hashlib.md5 is the Python standard library, an external primitive here; the
embedding is parameterized by it.  The spec (section 9) explicitly assumes
fingerprint collisions do not occur; that assumption appears below as an
injectivity hypothesis on the primitive. -/

/-- The string `f"{image_id}{url}{datetime_val}"` hashed by
generate_image_hash. -/
def image_hash_data (image : Image) : String :=
  image.id ++ image.url ++ image.mdatetime

/-- ImgurHasher.generate_image_hash, parameterized by the hashlib.md5
hexdigest primitive. -/
def generate_image_hash (md5hex : String → String) (image : Image) : String :=
  md5hex (image_hash_data image)

/-! ## ProjectStateManager (construction_workflow.py lines 200-217).
The json and os modules are the Python standard library; json.dump followed
by json.load is modeled as storing the JSON document itself, and os.makedirs
with exist_ok=True as adding every ancestor directory.  What remains is
exactly the code of load_state and save_state: the default state when the
file is absent, and the parent-directory creation before the write. -/

/-- A JSON document (the values json.dump accepts and json.load returns for
this state file: objects, arrays, strings, integers, booleans, null). -/
inductive Json where
  | null
  | bool (b : Bool)
  | num (n : Int)
  | str (s : String)
  | arr (xs : List Json)
  | obj (fields : List (String × Json))

/-- A file path, as the list of its components. -/
abbrev FilePathM : Type := List String

/-- A tiny filesystem: the set of existing directories and the files with
their (parsed) JSON contents. -/
structure FS where
  dirs : List FilePathM
  files : List (FilePathM × Json)

/-- Lookup of a file's content. -/
def lookupFile (p : FilePathM) : List (FilePathM × Json) → Option Json
  | [] => none
  | (q, v) :: t => if q = p then some v else lookupFile p t

/-- Write or overwrite a file entry. -/
def insertFile (p : FilePathM) (v : Json) : List (FilePathM × Json) → List (FilePathM × Json)
  | [] => [(p, v)]
  | (q, w) :: t => if q = p then (q, v) :: t else (q, w) :: insertFile p v t

/-- All initial segments of a path: the directories os.makedirs creates. -/
def ancestorsOf (d : FilePathM) : List FilePathM :=
  (List.range (d.length + 1)).map (fun n => d.take n)

/-- os.makedirs(d, exist_ok=True): never fails, creates every ancestor. -/
def makedirs (d : FilePathM) (fs : FS) : FS :=
  { fs with dirs := ancestorsOf d ++ fs.dirs }

/-- open(path, "w") plus a write: fails when the parent directory is
missing (a file in the working directory itself always has its parent). -/
def writeFile (p : FilePathM) (v : Json) (fs : FS) : Except String FS :=
  if p.dropLast ∈ fs.dirs ∨ p.dropLast = [] then
    .ok { fs with files := insertFile p v fs.files }
  else
    .error "FileNotFoundError: no such directory"

/-- ProjectStateManager.load_state: the parsed file content when the state
file exists, the default empty state otherwise. -/
def load_state (fs : FS) (state_file : FilePathM) : Json :=
  match lookupFile state_file fs.files with
  | some v => v
  | none => Json.obj [("projects", Json.obj []), ("last_scan", Json.null)]

/-- ProjectStateManager.save_state: os.makedirs(self.state_file.parent,
exist_ok=True) then the json.dump write. -/
def save_state (fs : FS) (state_file : FilePathM) (state : Json) : Except String FS :=
  writeFile state_file state (makedirs state_file.dropLast fs)

/-! ## The issue coordinator (spec section 4.4). -/

/-- Oracle for the two issue-tracker calls of ensureIssue. -/
structure IssueEnv where
  findIssue : Except Exc (Option Nat)
  createIssue : Except Exc Nat

/-- Issue-tracker calls observable from ensureIssue. -/
inductive IssueEffect where
  | findE
  | createE
  deriving DecidableEq

/-- Modelled from the spec: the find-or-create issue coordinator
(`ConstructionWorkflow._setup_project_issue` together with
`GitHubManager.find_existing_issue`), which is exercised by
tests/test_construction_workflow.py and called from
workflows/construction_monitor.py but whose definition is not among the
source files.  Spec section 4.4: attempt to find an existing open issue with
the canonical title and reuse its id; otherwise attempt to create one; a
permission-denied failure on either call is caught and treated as "no issue
available this run" (None) instead of aborting the project's sync. -/
def ensureIssue (env : IssueEnv) : Except Exc (Option Nat × List IssueEffect) :=
  match env.findIssue with
  | .ok (some n) => .ok (some n, [IssueEffect.findE])
  | .ok none =>
    match env.createIssue with
    | .ok n => .ok (some n, [IssueEffect.findE, IssueEffect.createE])
    | .error (Exc.permission _) => .ok (none, [IssueEffect.findE, IssueEffect.createE])
    | .error e => .error e
  | .error (Exc.permission _) => .ok (none, [IssueEffect.findE])
  | .error e => .error e

/-! ## C5 -/

/-! ## C6 -/

/-! ## C8 -/

/-! ## C7 -/

/-- A subprocess oracle under which the local and remote listings are empty,
the inner `git checkout main` fails, and the fetch-main fallback plus every
later command succeed. -/
def c7env : GitEnv :=
  { branchListStdout := "", lsRemoteStdout := "",
    checkoutOk := true, fetchOk := true, checkoutTrackOk := true,
    checkoutMainOk := false, fetchMainOk := true, checkoutMainTrackOk := true,
    pullMainOk := true, checkoutNewOk := true }

/-! ## C9 -/

/-- Effects that the no-op optimization must rule out: branch switching,
directory and metadata writes, downloads, commits and issue updates. -/
def isSideOp : Effect → Bool
  | .listImagesE _ => false
  | .createIssueE _ => false
  | .branchE _ => true
  | .mkdirE _ => true
  | .downloadE _ _ _ => true
  | .writeMetadataE _ => true
  | .commitE _ _ => true
  | .commentE _ _ => true

/-! ## Preservation machinery: how one run evolves a project entry -/

/-- `ExtPS a b`: project entry `b` is entry `a` with zero or more image
records appended; every other field is untouched. -/
def ExtPS (a b : ProjectState) : Prop :=
  b.project_id = a.project_id ∧ b.project_title = a.project_title ∧
  b.issue_number = a.issue_number ∧ b.branch_name = a.branch_name ∧
  b.created_at = a.created_at ∧ ∃ t, b.images = a.images ++ t

/-! ## Fixtures for the closed counterexamples and witnesses -/

/-- Remote image with a downloadable URL. -/
def wImg : Image := ⟨"i1", "tA", "http://x/1.jpg", "001.jpg", "d1"⟩

/-- Remote project A. -/
def wProj : Project := ⟨"pidA", "Proj A", "proj-a", "uA"⟩

/-- Project entry created on 2025-01-01, before the runs below. -/
def wPsOld : ProjectState :=
  ⟨"pidA", "Proj A", some 7, "project/2025-01-01-proj-a", "T0", []⟩

/-- The same entry after a run on 2025-02-02 appended the new image. -/
def wPsNew : ProjectState :=
  ⟨"pidA", "Proj A", some 7, "project/2025-01-01-proj-a", "T0",
    [("h-i1", ⟨"i1", "tA", "001.jpg", "T1"⟩)]⟩

/-- Oracle for a fully successful run on 2025-02-02 that lists project A
with one image. -/
def wEnv : Env :=
  ⟨true, .ok [wProj], fun _ => .ok [wImg], fun i => "h-" ++ i.id,
    "2025-02-02", "T1", fun _ => true, fun _ _ _ => some "f", fun _ _ => true,
    fun _ => .ok 7, fun _ => .ok ()⟩

/-- Prior state tracking project A with no images, created on 2025-01-01. -/
def wSt : SyncState := ⟨[("proj-a", wPsOld)], some "T0"⟩

/-- Result of running wEnv on wSt. -/
def wRes : RunResult :=
  ⟨true, some ⟨[("proj-a", wPsNew)], some "T1"⟩,
    [Effect.listImagesE "pidA", Effect.branchE "project/2025-02-02-proj-a",
     Effect.mkdirE "assets/images/2025-02-02-proj-a",
     Effect.downloadE "http://x/1.jpg" "assets/images/2025-02-02-proj-a" "001.jpg",
     Effect.writeMetadataE "assets/images/2025-02-02-proj-a",
     Effect.commitE "assets/images/2025-02-02-proj-a" "Sync 1 new photos: proj-a",
     Effect.commentE 7 "proj-a"]⟩

/-- The sync result of wEnv on project A with nothing tracked. -/
def wSyncRes : (List (Image × String) × Nat) × List Effect :=
  ⟨⟨[(wImg, "h-i1")], 1⟩,
    [Effect.listImagesE "pidA", Effect.branchE "project/2025-02-02-proj-a",
     Effect.mkdirE "assets/images/2025-02-02-proj-a",
     Effect.downloadE "http://x/1.jpg" "assets/images/2025-02-02-proj-a" "001.jpg",
     Effect.writeMetadataE "assets/images/2025-02-02-proj-a",
     Effect.commitE "assets/images/2025-02-02-proj-a" "Sync 1 new photos: proj-a"]⟩

/-- wEnv with issue creation denied by permissions. -/
def wEnvPerm : Env :=
  { wEnv with createIssue := fun _ => .error (Exc.permission "403") }

/-! ## C3 -/

/-- Oracle for a run in which the remote listing is empty. -/
def c3env : Env :=
  ⟨true, .ok [], fun _ => .ok [], fun i => "h-" ++ i.id, "2025-02-02", "T1",
    fun _ => true, fun _ _ _ => some "f", fun _ _ => true, fun _ => .ok 7,
    fun _ => .ok ()⟩

/-! ## C1 -/

/-- Remote image of project B. -/
def c1imgB : Image := ⟨"i2", "tB", "http://x/2.jpg", "002.jpg", "d2"⟩

/-- Remote project B. -/
def c1projB : Project := ⟨"pidB", "Proj B", "proj-b", "uB"⟩

/-- Oracle for a run listing projects A and B, where only the commit of
project A (recognized by its commit message) fails. -/
def c1env : Env :=
  ⟨true, .ok [wProj, c1projB],
    fun pid => if pid = "pidA" then .ok [wImg] else .ok [c1imgB],
    fun i => "h-" ++ i.id, "2025-02-02", "T1", fun _ => true,
    fun _ _ _ => some "f", fun _ msg => !(strContains msg "proj-a"),
    fun _ => .ok 7, fun _ => .ok ()⟩

/-- The same oracle with only project B listed. -/
def c1envB : Env := { c1env with projectsList := .ok [c1projB] }

/-- The successful result of running c1envB (project B alone) on empty
state. -/
def c1resB : RunResult :=
  ⟨true,
    some ⟨[("proj-b", ⟨"pidB", "Proj B", some 7, "project/2025-02-02-proj-b",
      "T1", [("h-i2", ⟨"i2", "tB", "002.jpg", "T1"⟩)]⟩)], some "T1"⟩,
    [Effect.createIssueE "proj-b", Effect.listImagesE "pidB",
     Effect.branchE "project/2025-02-02-proj-b",
     Effect.mkdirE "assets/images/2025-02-02-proj-b",
     Effect.downloadE "http://x/2.jpg" "assets/images/2025-02-02-proj-b" "002.jpg",
     Effect.writeMetadataE "assets/images/2025-02-02-proj-b",
     Effect.commitE "assets/images/2025-02-02-proj-b" "Sync 1 new photos: proj-b",
     Effect.commentE 7 "proj-b"]⟩

/-! ## C2 -/

/-- Recognizer for download effects. -/
def isDownloadE : Effect → Bool
  | .downloadE _ _ _ => true
  | _ => false

/-- Recognizer for commit effects. -/
def isCommitE : Effect → Bool
  | .commitE _ _ => true
  | _ => false

/-- Remote image whose url is missing (empty string). -/
def c2imgNoUrl : Image := ⟨"i3", "tC", "", "003.jpg", "d3"⟩

/-- Oracle for a run with one new project whose single image has no url. -/
def c2env : Env :=
  ⟨true, .ok [wProj], fun _ => .ok [c2imgNoUrl], fun i => "h-" ++ i.id,
    "2025-02-02", "T1", fun _ => true, fun _ _ _ => some "f", fun _ _ => true,
    fun _ => .ok 7, fun _ => .ok ()⟩

/-- The project entry created by the c2env run: the undownloaded image is
recorded. -/
def c2ps : ProjectState :=
  ⟨"pidA", "Proj A", some 7, "project/2025-02-02-proj-a", "T1",
    [("h-i3", ⟨"i3", "tC", "003.jpg", "T1"⟩)]⟩

/-- The result of running c2env on empty state: the image is recorded in the
saved state although it was never downloaded (no download effect) and
nothing was committed (no commit effect). -/
def c2res : RunResult :=
  ⟨true, some ⟨[("proj-a", c2ps)], some "T1"⟩,
    [Effect.createIssueE "proj-a", Effect.listImagesE "pidA",
     Effect.branchE "project/2025-02-02-proj-a",
     Effect.mkdirE "assets/images/2025-02-02-proj-a",
     Effect.commentE 7 "proj-a"]⟩

/-- Witness image whose download succeeds. -/
def c2wImgA : Image := ⟨"i4", "tD", "http://x/4.jpg", "004.jpg", "d4"⟩

/-- Witness image whose download fails. -/
def c2wImgB : Image := ⟨"i5", "tE", "http://x/5.jpg", "005.jpg", "d5"⟩

/-- Oracle with a two-image diff where exactly one download succeeds, so the
commit happens while the other image was never downloaded. -/
def c2wEnv : Env :=
  ⟨true, .ok [wProj], fun _ => .ok [c2wImgA, c2wImgB], fun i => "h-" ++ i.id,
    "2025-02-02", "T1", fun _ => true,
    fun u _ _ => if u = "http://x/4.jpg" then some "f4" else none,
    fun _ _ => true, fun _ => .ok 7, fun _ => .ok ()⟩

/-- The project entry produced by processing wProj under c2wEnv: both diff
images recorded, the failed download included. -/
def c2wPsN : ProjectState :=
  ⟨"pidA", "Proj A", some 7, "project/2025-02-02-proj-a", "T1",
    [("h-i4", ⟨"i4", "tD", "004.jpg", "T1"⟩),
     ("h-i5", ⟨"i5", "tE", "005.jpg", "T1"⟩)]⟩

/-- State after processing wProj under c2wEnv from empty state. -/
def c2wSt2 : SyncState := ⟨[("proj-a", c2wPsN)], none⟩

/-- Accumulator after processing wProj under c2wEnv from empty state. -/
def c2wCur2 : AList ProjectState := [("proj-a", c2wPsN)]

/-- Effects of processing wProj under c2wEnv from empty state: both download
attempts, one successful commit. -/
def c2wEffs : List Effect :=
  [Effect.createIssueE "proj-a", Effect.listImagesE "pidA",
   Effect.branchE "project/2025-02-02-proj-a",
   Effect.mkdirE "assets/images/2025-02-02-proj-a",
   Effect.downloadE "http://x/4.jpg" "assets/images/2025-02-02-proj-a" "004.jpg",
   Effect.downloadE "http://x/5.jpg" "assets/images/2025-02-02-proj-a" "005.jpg",
   Effect.writeMetadataE "assets/images/2025-02-02-proj-a",
   Effect.commitE "assets/images/2025-02-02-proj-a" "Sync 1 new photos: proj-a",
   Effect.commentE 7 "proj-a"]

/-- State already tracking the hash of wImg, so the diff is empty. -/
def c9St : SyncState := ⟨[("proj-a", wPsNew)], some "T0"⟩

/-! ## Theorems -/

/-! ## Helper lemmas -/

theorem alookup_ainsert_self {α : Type} (k : String) (v : α) (l : AList α) :
    alookup k (ainsert k v l) = some v := by
  induction l with
  | nil => simp [ainsert, alookup]
  | cons h t ih =>
    by_cases hk : h.1 = k
    · simp [ainsert, alookup, hk]
    · simpa [ainsert, alookup, hk] using ih

theorem alookup_ainsert_ne {α : Type} {k k2 : String} (v : α) (l : AList α)
    (hne : k2 ≠ k) : alookup k (ainsert k2 v l) = alookup k l := by
  induction l with
  | nil => simp [ainsert, alookup, hne]
  | cons h t ih =>
    by_cases hk : h.1 = k2
    · simp only [ainsert, hk, if_pos rfl, alookup]
      rw [if_neg (hk ▸ hne), if_neg (hk ▸ hne)]
    · simp only [ainsert, if_neg hk, alookup]
      by_cases hk2 : h.1 = k
      · rw [if_pos hk2, if_pos hk2]
      · rw [if_neg hk2, if_neg hk2, ih]

theorem alookup_aupdate_self {α : Type} (k : String) (f : α → α) (l : AList α) :
    alookup k (aupdate k f l) = (alookup k l).map f := by
  induction l with
  | nil => simp [aupdate, alookup]
  | cons h t ih =>
    by_cases hk : h.1 = k
    · simp [aupdate, alookup, hk]
    · simpa [aupdate, alookup, hk] using ih

theorem alookup_aupdate_ne {α : Type} {k k2 : String} (f : α → α) (l : AList α)
    (hne : k2 ≠ k) : alookup k (aupdate k2 f l) = alookup k l := by
  induction l with
  | nil => simp [aupdate, alookup]
  | cons h t ih =>
    by_cases hk : h.1 = k2
    · simp only [aupdate, hk, if_pos rfl, alookup]
      rw [if_neg (hk ▸ hne), if_neg (hk ▸ hne)]
    · simp only [aupdate, if_neg hk, alookup]
      by_cases hk2 : h.1 = k
      · rw [if_pos hk2, if_pos hk2]
      · rw [if_neg hk2, if_neg hk2, ih]

theorem strAppend_cancel_right {a b c : String} (h : a ++ c = b ++ c) : a = b := by
  have hd : (a ++ c).data = (b ++ c).data := by rw [h]
  simp only [String.data_append] at hd
  exact String.ext (List.append_cancel_right hd)

theorem strAppend_cancel_left {a b c : String} (h : c ++ a = c ++ b) : a = b := by
  have hd : (c ++ a).data = (c ++ b).data := by rw [h]
  simp only [String.data_append] at hd
  exact String.ext (List.append_cancel_left hd)

/-- C5: the coordinator first tries to find an existing open issue with the
canonical "Construction Project: ..." title and reuses its id when found (so
a second run over an already-tracked project performs no create call and
never produces a duplicate issue), and a permission-denied failure on either
the find or the create call yields no issue id for the run instead of an
exception, so the photo sync of the project is not aborted.  Modelled from
the spec (section 4.4), since `_setup_project_issue` and
`find_existing_issue` are only present through their tests and callers. -/
theorem c5_ensure_issue_idempotent_and_degrading (env : IssueEnv) (n : Nat) (m : String) :
    (env.findIssue = .ok (some n) →
      ensureIssue env = .ok (some n, [IssueEffect.findE])) ∧
    (env.findIssue = .error (Exc.permission m) →
      ensureIssue env = .ok (none, [IssueEffect.findE])) ∧
    (env.findIssue = .ok none → env.createIssue = .error (Exc.permission m) →
      ensureIssue env = .ok (none, [IssueEffect.findE, IssueEffect.createE])) := by
  refine ⟨fun h => ?_, fun h => ?_, fun h1 h2 => ?_⟩
  · simp [ensureIssue, h]
  · simp [ensureIssue, h]
  · simp [ensureIssue, h1, h2]

theorem c5_witness :
    ensureIssue ⟨Except.ok (some 5), Except.ok 9⟩ =
      Except.ok (some 5, [IssueEffect.findE]) ∧
    ensureIssue ⟨Except.error (Exc.permission "403"), Except.ok 9⟩ =
      Except.ok (none, [IssueEffect.findE]) ∧
    ensureIssue ⟨Except.ok none, Except.error (Exc.permission "403")⟩ =
      Except.ok (none, [IssueEffect.findE, IssueEffect.createE]) :=
  ⟨(c5_ensure_issue_idempotent_and_degrading ⟨Except.ok (some 5), Except.ok 9⟩ 5 "403").1 rfl,
   (c5_ensure_issue_idempotent_and_degrading
     ⟨Except.error (Exc.permission "403"), Except.ok 9⟩ 5 "403").2.1 rfl,
   (c5_ensure_issue_idempotent_and_degrading
     ⟨Except.ok none, Except.error (Exc.permission "403")⟩ 5 "403").2.2 rfl rfl⟩

/-- C6: commit failure always propagates.  Neither commit_changes variant can
return False: each either returns True or lets the CalledProcessError of the
first failing subprocess escape; in particular a failing stage (git add) or
commit command always yields a raised error, never a success-like value. -/
theorem c6_commit_failure_propagates (env : CommitEnv) (ec : Bool) :
    GitManager_commit_changes env ≠ Except.ok false ∧
    GitOperations_commit_changes env ec ≠ Except.ok false ∧
    ((env.addOk = false ∨ env.commitOk = false) →
      (∃ e, GitManager_commit_changes env = Except.error e) ∧
      (∃ e, GitOperations_commit_changes env ec = Except.error e)) := by
  rcases env with ⟨cn, ce, ad, cm⟩
  cases cn <;> cases ce <;> cases ad <;> cases cm <;>
    simp [GitManager_commit_changes, GitOperations_commit_changes]

theorem c6_witness :
    ((⟨true, true, false, true⟩ : CommitEnv).addOk = false ∨
      (⟨true, true, false, true⟩ : CommitEnv).commitOk = false) ∧
    ((∃ e, GitManager_commit_changes ⟨true, true, false, true⟩ = Except.error e) ∧
     (∃ e, GitOperations_commit_changes ⟨true, true, false, true⟩ true = Except.error e)) :=
  ⟨Or.inl rfl,
   (c6_commit_failure_propagates ⟨true, true, false, true⟩ true).2.2 (Or.inl rfl)⟩

/-- C8: fingerprints are deterministic and field-sensitive.  The hash input
string of generate_image_hash depends only on the id, url and metadata
datetime fields, so the fingerprint of a fixed image record is the same on
every invocation and in every process; and under the collision-freedom
assumption the spec states for the hashlib.md5 primitive (formalized as
injectivity of the external hex-digest function), changing the id field
alone, or the url field alone, changes the fingerprint. -/
theorem c8_fingerprint_stable_and_sensitive (md5hex : String → String) (i1 i2 : Image) :
    (i1.id = i2.id → i1.url = i2.url → i1.mdatetime = i2.mdatetime →
      generate_image_hash md5hex i1 = generate_image_hash md5hex i2) ∧
    (Function.Injective md5hex →
      (i1.url = i2.url → i1.mdatetime = i2.mdatetime → i1.id ≠ i2.id →
        generate_image_hash md5hex i1 ≠ generate_image_hash md5hex i2) ∧
      (i1.id = i2.id → i1.mdatetime = i2.mdatetime → i1.url ≠ i2.url →
        generate_image_hash md5hex i1 ≠ generate_image_hash md5hex i2)) := by
  refine ⟨fun h1 h2 h3 => ?_, fun hinj => ⟨fun hu hd hid hc => ?_, fun hid hd hu hc => ?_⟩⟩
  · unfold generate_image_hash image_hash_data
    rw [h1, h2, h3]
  · apply hid
    have h : image_hash_data i1 = image_hash_data i2 := hinj hc
    unfold image_hash_data at h
    rw [hu, hd] at h
    exact strAppend_cancel_right (strAppend_cancel_right h)
  · apply hu
    have h : image_hash_data i1 = image_hash_data i2 := hinj hc
    unfold image_hash_data at h
    rw [hid, hd] at h
    exact strAppend_cancel_left (strAppend_cancel_right h)

theorem c8_witness :
    generate_image_hash (fun s => s) ⟨"a", "t", "u", "f", "d"⟩ =
      generate_image_hash (fun s => s) ⟨"a", "t2", "u", "f2", "d"⟩ ∧
    generate_image_hash (fun s => s) ⟨"a", "t", "u", "f", "d"⟩ ≠
      generate_image_hash (fun s => s) ⟨"b", "t", "u", "f", "d"⟩ ∧
    generate_image_hash (fun s => s) ⟨"a", "t", "u", "f", "d"⟩ ≠
      generate_image_hash (fun s => s) ⟨"a", "t", "u2", "f", "d"⟩ :=
  ⟨(c8_fingerprint_stable_and_sensitive (fun s => s) ⟨"a", "t", "u", "f", "d"⟩
      ⟨"a", "t2", "u", "f2", "d"⟩).1 rfl rfl rfl,
   ((c8_fingerprint_stable_and_sensitive (fun s => s) ⟨"a", "t", "u", "f", "d"⟩
      ⟨"b", "t", "u", "f", "d"⟩).2 (fun a b h => h)).1 rfl rfl (by decide),
   ((c8_fingerprint_stable_and_sensitive (fun s => s) ⟨"a", "t", "u", "f", "d"⟩
      ⟨"a", "t", "u2", "f", "d"⟩).2 (fun a b h => h)).2 rfl rfl (by decide)⟩

/-! ## C10 -/

theorem lookupFile_insertFile_self (p : FilePathM) (v : Json)
    (files : List (FilePathM × Json)) :
    lookupFile p (insertFile p v files) = some v := by
  induction files with
  | nil => simp [insertFile, lookupFile]
  | cons h t ih =>
    by_cases hk : h.1 = p
    · simp [insertFile, lookupFile, hk]
    · simpa [insertFile, lookupFile, hk] using ih

theorem self_mem_ancestorsOf (d : FilePathM) : d ∈ ancestorsOf d := by
  simp only [ancestorsOf, List.mem_map]
  exact ⟨d.length, by simp [List.mem_range], List.take_length d⟩

/-- C10: state persistence round-trips.  For every state value and every
starting filesystem, save_state succeeds (os.makedirs with exist_ok creates
the missing parent directories first, so the write cannot fail on a missing
parent) and an immediate load_state returns exactly the saved state; the
second conjunct states the missing-parent case of the claim explicitly. -/
theorem c10_save_load_round_trip (fs : FS) (p : FilePathM) (st : Json) :
    (∃ fs2, save_state fs p st = Except.ok fs2 ∧ load_state fs2 p = st) ∧
    (p.dropLast ∉ fs.dirs → ∃ fs2, save_state fs p st = Except.ok fs2) := by
  have hsave : save_state fs p st =
      Except.ok { dirs := ancestorsOf p.dropLast ++ fs.dirs,
                  files := insertFile p st fs.files } := by
    unfold save_state writeFile makedirs
    rw [if_pos (Or.inl (List.mem_append_left _ (self_mem_ancestorsOf _)))]
  refine ⟨⟨_, hsave, ?_⟩, fun _ => ⟨_, hsave⟩⟩
  unfold load_state
  rw [lookupFile_insertFile_self]

theorem c10_witness :
    (["data"] ∉ (⟨[], []⟩ : FS).dirs) ∧
    (∃ fs2, save_state ⟨[], []⟩ ["data", "state.json"] (Json.str "S") = Except.ok fs2) :=
  ⟨by simp,
   (c10_save_load_round_trip ⟨[], []⟩ ["data", "state.json"] (Json.str "S")).2 (by simp)⟩

/-- C7 counterexample: the claim says any underlying VCS command failure at
any step makes resolve return failure, but when the local `git checkout
main` probe fails and the fetch-from-origin fallback succeeds, a VCS command
has failed (the trace records checkoutMain as failed) while resolve still
returns success. -/
theorem c7_counterexample :
    (create_or_switch_branch c7env "project/2025-01-01-x").1 = true ∧
    (GitCmd.checkoutMain, false) ∈ (create_or_switch_branch c7env "project/2025-01-01-x").2 := by
  decide

/-- C7 amended: branch resolution follows local-then-remote-then-create
precedence: when the branch appears in the local listing, resolve performs
exactly the listing plus a local checkout (zero remote-listing calls, zero
main-branch creation calls); when it appears only in the remote listing it
is fetched and checked out as a tracking branch; otherwise it is created
from an up-to-date main, where a failing local `git checkout main` probe is
recovered by fetching main from origin.  Any VCS command failure other than
that recovered probe makes resolve return failure: whenever resolve
succeeds, every executed command except possibly the checkout-main probe
succeeded. -/
theorem c7_branch_precedence_amended (env : GitEnv) (bn : String) :
    (strContains env.branchListStdout bn = true →
      create_or_switch_branch env bn =
        (env.checkoutOk, [(GitCmd.branchList bn, true), (GitCmd.checkout bn, env.checkoutOk)])) ∧
    (strContains env.branchListStdout bn = false → pyStrip env.lsRemoteStdout ≠ "" →
      (create_or_switch_branch env bn).1 = (env.fetchOk && env.checkoutTrackOk) ∧
      ∀ cb, cb ∈ (create_or_switch_branch env bn).2 →
        cb.1 = GitCmd.branchList bn ∨ cb.1 = GitCmd.lsRemote bn ∨
        cb.1 = GitCmd.fetchOrigin bn ∨ cb.1 = GitCmd.checkoutTrack bn) ∧
    (strContains env.branchListStdout bn = false → pyStrip env.lsRemoteStdout = "" →
      (create_or_switch_branch env bn).1 =
        ((env.checkoutMainOk || (env.fetchMainOk && env.checkoutMainTrackOk)) &&
          (env.pullMainOk && env.checkoutNewOk))) ∧
    ((create_or_switch_branch env bn).1 = true →
      ∀ cb, cb ∈ (create_or_switch_branch env bn).2 →
        cb.2 = true ∨ cb.1 = GitCmd.checkoutMain) := by
  refine ⟨fun hloc => ?_, fun hloc hrem => ?_, fun hloc hrem => ?_, fun hres => ?_⟩
  · simp [create_or_switch_branch, hloc]
  · cases hf : env.fetchOk <;> cases ht : env.checkoutTrackOk <;>
      simp_all [create_or_switch_branch]
  · cases hcm : env.checkoutMainOk <;> cases hfm : env.fetchMainOk <;>
      cases hmt : env.checkoutMainTrackOk <;> cases hp : env.pullMainOk <;>
      cases hn : env.checkoutNewOk <;> simp_all [create_or_switch_branch]
  · intro cb hcb
    by_cases hloc : strContains env.branchListStdout bn
    · simp_all [create_or_switch_branch]
      rcases hcb with rfl | rfl <;> simp_all
    · by_cases hrem : pyStrip env.lsRemoteStdout = ""
      · cases hcm : env.checkoutMainOk <;> cases hfm : env.fetchMainOk <;>
          cases hmt : env.checkoutMainTrackOk <;> cases hp : env.pullMainOk <;>
          cases hn : env.checkoutNewOk <;> simp_all [create_or_switch_branch] <;>
          (rcases hcb with rfl | rfl | rfl | rfl | rfl | rfl | rfl <;> simp)
      · cases hf : env.fetchOk <;> cases ht : env.checkoutTrackOk <;>
          simp_all [create_or_switch_branch] <;>
          (rcases hcb with rfl | rfl | rfl | rfl <;> simp)

theorem c7_witness :
    (strContains "  project/x\n" "project/x" = true) ∧
    create_or_switch_branch
        { branchListStdout := "  project/x\n", lsRemoteStdout := "",
          checkoutOk := true, fetchOk := true, checkoutTrackOk := true,
          checkoutMainOk := true, fetchMainOk := true, checkoutMainTrackOk := true,
          pullMainOk := true, checkoutNewOk := true } "project/x" =
      (true, [(GitCmd.branchList "project/x", true), (GitCmd.checkout "project/x", true)]) :=
  ⟨by decide,
   (c7_branch_precedence_amended
     { branchListStdout := "  project/x\n", lsRemoteStdout := "",
       checkoutOk := true, fetchOk := true, checkoutTrackOk := true,
       checkoutMainOk := true, fetchMainOk := true, checkoutMainTrackOk := true,
       pullMainOk := true, checkoutNewOk := true } "project/x").1 (by decide)⟩

theorem sync_noop (env : Env) (p : Project) (existing : AList ImageRecord)
    (imgs : List Image) (himgs : env.images p.id = Except.ok imgs)
    (hempty : newImagesOf (imgs.map (fun i => (i, env.imageHash i))) (akeys existing) = []) :
    sync_project_photos env p existing =
      Except.ok (([], imgs.length), [Effect.listImagesE p.id]) := by
  unfold sync_project_photos
  rw [himgs]
  simp [hempty]

/-- C9: change detection returns exactly the new content, and an empty diff
is a no-op.  The new-image computation is the order-preserving sublist of
the listing containing exactly the images whose fingerprint is not tracked;
and a project occurrence whose diff is empty contributes no branch, mkdir,
download, metadata-write, commit or issue-comment effect. -/
theorem c9_diff_exact_and_empty_noop :
    (∀ (hashed : List (Image × String)) (tracked : List String),
      List.Sublist (newImagesOf hashed tracked) hashed ∧
      ∀ ih, ih ∈ newImagesOf hashed tracked ↔ ih ∈ hashed ∧ ih.2 ∉ tracked) ∧
    (∀ (env : Env) (st : SyncState) (cur : AList ProjectState) (p : Project)
       (imgs : List Image) (st2 : SyncState) (cur2 : AList ProjectState)
       (effs : List Effect),
      env.images p.id = Except.ok imgs →
      newImagesOf (imgs.map (fun i => (i, env.imageHash i)))
        (akeys (match alookup p.project_name st.projects with
                | some ps => ps.images
                | none => [])) = [] →
      process_project env st cur p = Except.ok (st2, cur2, effs) →
      effs.all (fun e => !(isSideOp e)) = true) := by
  constructor
  · intro hashed tracked
    refine ⟨List.filter_sublist hashed, fun ih => ?_⟩
    simp [newImagesOf, List.mem_filter]
  · intro env st cur p imgs st2 cur2 effs himgs hempty hok
    simp only [process_project] at hok
    cases hl : alookup p.project_name st.projects with
    | some ps =>
      simp only [hl] at hok hempty
      rw [sync_noop env p ps.images imgs himgs hempty] at hok
      simp only [recImages, List.foldl_nil, alookup_aupdate_self, hl,
        Option.map_some, Option.map, List.isEmpty_nil, Bool.not_true, Bool.false_and,
        Bool.and_self, if_neg, ite_false, Bool.false_eq_true,
        List.nil_append, List.append_nil, Except.ok.injEq, Prod.mk.injEq] at hok
      obtain ⟨-, -, heffs⟩ := hok
      subst heffs
      rfl
    | none =>
      simp only [hl] at hok hempty
      cases hc : env.createIssue p.project_name with
      | ok n =>
        simp only [hc, alookup_ainsert_self] at hok
        rw [sync_noop env p [] imgs himgs hempty] at hok
        simp only [recImages, List.foldl_nil, alookup_aupdate_self,
          alookup_ainsert_self, Option.map_some, Option.map, List.isEmpty_nil,
          Bool.not_true, Bool.false_and, Bool.false_eq_true, if_neg, ite_false,
          List.nil_append, List.append_nil, Except.ok.injEq, Prod.mk.injEq] at hok
        obtain ⟨-, -, heffs⟩ := hok
        subst heffs
        rfl
      | error e =>
        cases e with
        | permission m =>
          simp only [hc, alookup_ainsert_self] at hok
          rw [sync_noop env p [] imgs himgs hempty] at hok
          simp only [recImages, List.foldl_nil, alookup_aupdate_self,
            alookup_ainsert_self, Option.map_some, Option.map, List.isEmpty_nil,
            Bool.not_true, Bool.false_and, Bool.false_eq_true, if_neg, ite_false,
            List.nil_append, List.append_nil, Except.ok.injEq, Prod.mk.injEq] at hok
          obtain ⟨-, -, heffs⟩ := hok
          subst heffs
          rfl
        | general m =>
          simp only [hc] at hok
          exact absurd hok (by simp)

theorem ExtPS_refl (a : ProjectState) : ExtPS a a :=
  ⟨rfl, rfl, rfl, rfl, rfl, [], by simp⟩

theorem ExtPS_trans {a b c : ProjectState} (h1 : ExtPS a b) (h2 : ExtPS b c) :
    ExtPS a c := by
  obtain ⟨i1, t1, n1, b1, c1, s1, hs1⟩ := h1
  obtain ⟨i2, t2, n2, b2, c2, s2, hs2⟩ := h2
  exact ⟨i2.trans i1, t2.trans t1, n2.trans n1, b2.trans b1, c2.trans c1,
    s1 ++ s2, by rw [hs2, hs1, List.append_assoc]⟩

theorem ainsert_append_left {α : Type} {k : String} {l1 : AList α} (v : α)
    (l2 : AList α) (h : k ∉ akeys l1) :
    ainsert k v (l1 ++ l2) = l1 ++ ainsert k v l2 := by
  induction l1 with
  | nil => simp
  | cons hd tl ih =>
    simp only [akeys, List.map_cons, List.mem_cons] at h
    push_neg at h
    obtain ⟨h1, h2⟩ := h
    have ih2 := ih (by simpa [akeys] using h2)
    simp only [List.cons_append, ainsert, if_neg (Ne.symm h1)]
    exact congrArg (fun z => hd :: z) ih2

theorem recImages_cons (env : Env) (hd : Image × String)
    (tl : List (Image × String)) (l : AList ImageRecord) :
    recImages env (hd :: tl) l = recImages env tl (ainsert hd.2 (recordOf env hd.1) l) :=
  rfl

theorem recImages_extends (env : Env) (items : List (Image × String)) :
    ∀ (l1 l2 : AList ImageRecord), (∀ ih2, ih2 ∈ items → ih2.2 ∉ akeys l1) →
    ∃ t, recImages env items (l1 ++ l2) = l1 ++ t := by
  induction items with
  | nil => exact fun l1 l2 _ => ⟨l2, rfl⟩
  | cons hd tl ih =>
    intro l1 l2 hmem
    rw [recImages_cons,
      ainsert_append_left (recordOf env hd.1) l2 (hmem hd (List.mem_cons_self hd tl))]
    exact ih l1 (ainsert hd.2 (recordOf env hd.1) l2)
      (fun x hx => hmem x (List.mem_cons_of_mem hd hx))

theorem recImages_of_not_mem (env : Env) (items : List (Image × String))
    (l : AList ImageRecord) (h : ∀ ih2, ih2 ∈ items → ih2.2 ∉ akeys l) :
    ∃ t, recImages env items l = l ++ t := by
  have := recImages_extends env items l [] h
  rwa [List.append_nil] at this

/-- Every new image a successful sync returns has a fingerprint absent from
the tracked map the sync was given. -/
theorem sync_new_images_not_tracked (env : Env) (p : Project)
    (existing : AList ImageRecord)
    (res : (List (Image × String) × Nat) × List Effect)
    (h : sync_project_photos env p existing = Except.ok res) :
    ∀ ih2, ih2 ∈ res.1.1 → ih2.2 ∉ akeys existing := by
  unfold sync_project_photos at h
  cases hi : env.images p.id with
  | error e => rw [hi] at h; exact absurd h (by simp)
  | ok imgs =>
    rw [hi] at h
    simp only at h
    split at h
    · cases h; intro x hx; simp at hx
    · split at h
      · cases h; intro x hx; simp at hx
      · split at h
        · cases h
          intro x hx
          simp only [newImagesOf, List.mem_filter, decide_eq_true_eq] at hx
          exact hx.2
        · split at h
          · cases h
            intro x hx
            simp only [newImagesOf, List.mem_filter, decide_eq_true_eq] at hx
            exact hx.2
          · exact absurd h (by simp)

/-- Shape of one loop iteration: the accumulator gains (or overwrites) the
processed project's snapshot, and every project entry of the incoming state
is still present, extended only by appended image records. -/
theorem process_project_shape (env : Env) (st : SyncState)
    (cur : AList ProjectState) (p : Project) (st2 : SyncState)
    (cur2 : AList ProjectState) (effs : List Effect)
    (h : process_project env st cur p = Except.ok (st2, cur2, effs)) :
    (∃ psN, alookup p.project_name st2.projects = some psN ∧
      cur2 = ainsert p.project_name psN cur) ∧
    (∀ name ps, alookup name st.projects = some ps →
      ∃ ps2, alookup name st2.projects = some ps2 ∧ ExtPS ps ps2) := by
  simp only [process_project] at h
  cases hl : alookup p.project_name st.projects with
  | some ps =>
    simp only [hl] at h
    cases hs : sync_project_photos env p ps.images with
    | error e => rw [hs] at h; exact absurd h (by simp)
    | ok res =>
      obtain ⟨⟨new_images, total⟩, effs1⟩ := res
      rw [hs] at h
      simp only [alookup_aupdate_self, hl, Option.map] at h
      have hnew := sync_new_images_not_tracked env p ps.images _ hs
      obtain ⟨t, ht⟩ := recImages_of_not_mem env new_images ps.images hnew
      have hlook2 : alookup p.project_name
          (aupdate p.project_name
            (fun x => { x with images := recImages env new_images x.images })
            st.projects) =
          some { ps with images := recImages env new_images ps.images } := by
        rw [alookup_aupdate_self, hl]; rfl
      have hext : ∀ name q, alookup name st.projects = some q →
          ∃ q2, alookup name
            (aupdate p.project_name
              (fun x => { x with images := recImages env new_images x.images })
              st.projects) = some q2 ∧ ExtPS q q2 := by
        intro name q hq
        by_cases hn : p.project_name = name
        · subst hn
          rw [hl] at hq
          cases hq
          exact ⟨_, hlook2, rfl, rfl, rfl, rfl, rfl, t, ht⟩
        · exact ⟨q, by rw [alookup_aupdate_ne _ _ hn]; exact hq, ExtPS_refl q⟩
      repeat' split at h
      all_goals
        first
          | exact Except.noConfusion h
          | (injection h with hh
             injection hh with h1 hh2
             injection hh2 with h2 h3
             subst h1; subst h2; subst h3
             exact ⟨⟨_, hlook2, rfl⟩, hext⟩)
  | none =>
    simp only [hl] at h
    cases hc : env.createIssue p.project_name with
    | ok n =>
      simp only [hc, alookup_ainsert_self] at h
      cases hs : sync_project_photos env p [] with
      | error e => rw [hs] at h; exact absurd h (by simp)
      | ok res =>
        obtain ⟨⟨new_images, total⟩, effs1⟩ := res
        rw [hs] at h
        simp only [alookup_aupdate_self, alookup_ainsert_self, Option.map] at h
        have hlook2 : alookup p.project_name
            (aupdate p.project_name
              (fun x => { x with images := recImages env new_images x.images })
              (ainsert p.project_name
                { project_id := p.id, project_title := p.title,
                  issue_number := some n,
                  branch_name := get_branch_name p.project_name env.today,
                  created_at := env.now, images := [] } st.projects)) =
            some { project_id := p.id, project_title := p.title,
                   issue_number := some n,
                   branch_name := get_branch_name p.project_name env.today,
                   created_at := env.now, images := recImages env new_images [] } := by
          rw [alookup_aupdate_self, alookup_ainsert_self]; rfl
        have hext : ∀ name q, alookup name st.projects = some q →
            ∃ q2, alookup name
              (aupdate p.project_name
                (fun x => { x with images := recImages env new_images x.images })
                (ainsert p.project_name
                  { project_id := p.id, project_title := p.title,
                    issue_number := some n,
                    branch_name := get_branch_name p.project_name env.today,
                    created_at := env.now, images := [] } st.projects)) = some q2 ∧
              ExtPS q q2 := by
          intro name q hq
          have hn : p.project_name ≠ name := fun he => by
            rw [he] at hl; rw [hl] at hq; exact absurd hq (by simp)
          refine ⟨q, ?_, ExtPS_refl q⟩
          rw [alookup_aupdate_ne _ _ hn, alookup_ainsert_ne _ _ hn]
          exact hq
        repeat' split at h
        all_goals
          first
            | exact Except.noConfusion h
            | (injection h with hh
               injection hh with h1 hh2
               injection hh2 with h2 h3
               subst h1; subst h2; subst h3
               exact ⟨⟨_, hlook2, rfl⟩, hext⟩)
    | error e =>
      cases e with
      | permission m =>
        simp only [hc, alookup_ainsert_self] at h
        cases hs : sync_project_photos env p [] with
        | error e2 => rw [hs] at h; exact absurd h (by simp)
        | ok res =>
          obtain ⟨⟨new_images, total⟩, effs1⟩ := res
          rw [hs] at h
          simp only [alookup_aupdate_self, alookup_ainsert_self, Option.map] at h
          have hlook2 : alookup p.project_name
              (aupdate p.project_name
                (fun x => { x with images := recImages env new_images x.images })
                (ainsert p.project_name
                  { project_id := p.id, project_title := p.title,
                    issue_number := none,
                    branch_name := get_branch_name p.project_name env.today,
                    created_at := env.now, images := [] } st.projects)) =
              some { project_id := p.id, project_title := p.title,
                     issue_number := none,
                     branch_name := get_branch_name p.project_name env.today,
                     created_at := env.now, images := recImages env new_images [] } := by
            rw [alookup_aupdate_self, alookup_ainsert_self]; rfl
          have hext : ∀ name q, alookup name st.projects = some q →
              ∃ q2, alookup name
                (aupdate p.project_name
                  (fun x => { x with images := recImages env new_images x.images })
                  (ainsert p.project_name
                    { project_id := p.id, project_title := p.title,
                      issue_number := none,
                      branch_name := get_branch_name p.project_name env.today,
                      created_at := env.now, images := [] } st.projects)) = some q2 ∧
                ExtPS q q2 := by
            intro name q hq
            have hn : p.project_name ≠ name := fun he => by
              rw [he] at hl; rw [hl] at hq; exact absurd hq (by simp)
            refine ⟨q, ?_, ExtPS_refl q⟩
            rw [alookup_aupdate_ne _ _ hn, alookup_ainsert_ne _ _ hn]
            exact hq
          repeat' split at h
          all_goals
            first
              | exact Except.noConfusion h
              | (injection h with hh
                 injection hh with h1 hh2
                 injection hh2 with h2 h3
                 subst h1; subst h2; subst h3
                 exact ⟨⟨_, hlook2, rfl⟩, hext⟩)
      | general m =>
        simp only [hc] at h
        exact absurd h (by simp)

/-- The accumulator invariant of the per-project loop: an entry of the final
accumulator for a name present in the starting state is that starting entry
with image records appended. -/
theorem runGo_extends (env : Env) :
    ∀ (projs : List Project) (st : SyncState) (cur curF : AList ProjectState)
      (effs : List Effect),
    runGo env st cur projs = Except.ok (curF, effs) →
    ∀ (name : String) (ps0 : ProjectState),
      (∃ ps, alookup name st.projects = some ps ∧ ExtPS ps0 ps) →
      (∀ psC, alookup name cur = some psC → ExtPS ps0 psC) →
      ∀ psF, alookup name curF = some psF → ExtPS ps0 psF := by
  intro projs
  induction projs with
  | nil =>
    intro st cur curF effs h name ps0 _hst hcur psF hF
    simp only [runGo] at h
    injection h with hh
    injection hh with h1 h2
    subst h1
    exact hcur psF hF
  | cons p rest ih =>
    intro st cur curF effs h name ps0 hst hcur psF hF
    simp only [runGo] at h
    cases hp : process_project env st cur p with
    | error e => rw [hp] at h; exact absurd h (by simp)
    | ok trip =>
      obtain ⟨st2, cur2, effs1⟩ := trip
      simp only [hp] at h
      cases hr : runGo env st2 cur2 rest with
      | error e => rw [hr] at h; exact absurd h (by simp)
      | ok pair =>
        obtain ⟨curF2, effs2⟩ := pair
        simp only [hr] at h
        injection h with hh
        injection hh with h1 h2
        subst h1
        obtain ⟨⟨psN, hpsN, hcur2⟩, hext⟩ :=
          process_project_shape env st cur p st2 cur2 effs1 hp
        obtain ⟨ps, hps, hext0⟩ := hst
        obtain ⟨ps2, hps2, hext2⟩ := hext name ps hps
        refine ih st2 cur2 curF2 effs2 hr name ps0
          ⟨ps2, hps2, ExtPS_trans hext0 hext2⟩ ?_ psF hF
        intro psC hC
        by_cases hn : p.project_name = name
        · subst hn
          rw [hcur2, alookup_ainsert_self] at hC
          injection hC with hCe
          rw [hpsN] at hps2
          injection hps2 with he
          rw [← hCe, he]
          exact ExtPS_trans hext0 hext2
        · rw [hcur2, alookup_ainsert_ne _ _ hn] at hC
          exact hcur psC hC

/-- Run-level preservation: when a run succeeds and saves, every project of
the prior state that survives into the saved state is the prior entry with
image records appended and every other field unchanged. -/
theorem run_extends (env : Env) (st0 : SyncState) (r : RunResult) (sst : SyncState)
    (h : run env st0 = Except.ok r) (hs : r.saved = some sst) :
    ∀ (name : String) (ps0 psF : ProjectState),
      alookup name st0.projects = some ps0 →
      alookup name sst.projects = some psF → ExtPS ps0 psF := by
  intro name ps0 psF h0 hF
  unfold run at h
  split at h
  · injection h with hh
    rw [← hh] at hs
    exact absurd hs (by simp)
  · split at h
    · injection h with hh
      rw [← hh] at hs
      exact absurd hs (by simp)
    · rename_i projs heqp
      cases hg : runGo env st0 [] projs with
      | error e => rw [hg] at h; exact absurd h (by simp)
      | ok pair =>
        obtain ⟨curF, effs⟩ := pair
        simp only [hg] at h
        injection h with hh
        rw [← hh] at hs
        simp only [Option.some.injEq] at hs
        have hproj : sst.projects = curF := by rw [← hs]
        rw [hproj] at hF
        exact runGo_extends env projs st0 [] curF effs hg name ps0
          ⟨ps0, h0, ExtPS_refl ps0⟩
          (fun psC hC => absurd hC (by simp [alookup])) psF hF

/-- C3 counterexample: the persisted ledger does not only grow.  A project
present in the state before the run but absent from the remote listing is
removed entirely at the end of the run (run line 391 replaces the projects
map with the processed-projects accumulator), so its tracked-hash set does
not survive, let alone grow. -/
theorem c3_counterexample :
    run c3env ⟨[("proj-a", wPsOld)], some "T0"⟩ =
      Except.ok ⟨true, some ⟨[], some "T1"⟩, []⟩ ∧
    alookup "proj-a" ([] : AList ProjectState) = none :=
  ⟨rfl, rfl⟩

/-- C3 amended: for every project that is still present in the saved state
(which the code guarantees exactly for projects in the current remote
listing), the images map only grows: the saved entry is the prior entry with
records appended, so the prior tracked hashes all survive and no prior entry
is removed or overwritten; but projects absent from the remote listing are
dropped from the state wholesale. -/
theorem c3_append_only_amended (env : Env) (st0 : SyncState) (r : RunResult)
    (sst : SyncState) (name : String) (ps0 psF : ProjectState)
    (hrun : run env st0 = Except.ok r) (hsaved : r.saved = some sst)
    (h0 : alookup name st0.projects = some ps0)
    (hF : alookup name sst.projects = some psF) :
    (∃ t, psF.images = ps0.images ++ t) ∧
    (∀ h2, h2 ∈ akeys ps0.images → h2 ∈ akeys psF.images) := by
  obtain ⟨-, -, -, -, -, t, ht⟩ :=
    run_extends env st0 r sst hrun hsaved name ps0 psF h0 hF
  refine ⟨⟨t, ht⟩, fun h2 hmem => ?_⟩
  rw [ht]
  simp only [akeys, List.map_append, List.mem_append]
  exact Or.inl (by simpa [akeys] using hmem)

theorem c3_witness :
    (∃ t, wPsNew.images = wPsOld.images ++ t) ∧
    (∀ h2, h2 ∈ akeys wPsOld.images → h2 ∈ akeys wPsNew.images) :=
  c3_append_only_amended wEnv wSt wRes ⟨[("proj-a", wPsNew)], some "T1"⟩
    "proj-a" wPsOld wPsNew rfl rfl rfl rfl

/-! ## C4 -/

theorem downloadLoop_effects (env : Env) (dir : String) :
    ∀ (items : List (Image × String)) (e : Effect),
      e ∈ (downloadLoop env dir items).2 → ∃ u d f, e = Effect.downloadE u d f := by
  intro items
  induction items with
  | nil => intro e he; simp [downloadLoop] at he
  | cons hd tl ih =>
    intro e he
    obtain ⟨img, hsh⟩ := hd
    simp only [downloadLoop] at he
    by_cases hu : img.url = ""
    · rw [if_pos hu] at he
      exact ih e he
    · rw [if_neg hu] at he
      cases hdl : env.download img.url dir img.filename with
      | some p =>
        rw [hdl] at he
        simp only [List.mem_cons] at he
        rcases he with rfl | he
        · exact ⟨_, _, _, rfl⟩
        · exact ih e he
      | none =>
        rw [hdl] at he
        simp only [List.mem_cons] at he
        rcases he with rfl | he
        · exact ⟨_, _, _, rfl⟩
        · exact ih e he

/-- C4 counterexample: the branch name is not taken from the stored record.
Project A was created on 2025-01-01 with stored branch_name
project/2025-01-01-proj-a; a later run on 2025-02-02 resolves and commits on
project/2025-02-02-proj-a (recomputed from the current date by
sync_project_photos via ProjectExtractor.get_branch_name) and never touches
the stored branch. -/
theorem c4_counterexample :
    wPsOld.branch_name = "project/2025-01-01-proj-a" ∧
    run wEnv wSt = Except.ok wRes ∧
    Effect.branchE "project/2025-02-02-proj-a" ∈ wRes.effects ∧
    wRes.effects.contains (Effect.branchE "project/2025-01-01-proj-a") = false := by
  refine ⟨rfl, rfl, ?_, ?_⟩ <;> decide

/-- C4 amended: the stored branch_name (and created_at) of an existing
project entry is never mutated by a run, but it is also never used: every
branch resolution performed during a sync targets the branch name recomputed
from the project name and the CURRENT date, which coincides with the stored
name only when the run happens on the creation date. -/
theorem c4_branch_stored_immutable_but_recomputed :
    (∀ (env : Env) (st0 : SyncState) (r : RunResult) (sst : SyncState)
       (name : String) (ps0 psF : ProjectState),
      run env st0 = Except.ok r → r.saved = some sst →
      alookup name st0.projects = some ps0 →
      alookup name sst.projects = some psF →
      psF.branch_name = ps0.branch_name ∧ psF.created_at = ps0.created_at) ∧
    (∀ (env : Env) (p : Project) (existing : AList ImageRecord)
       (res : (List (Image × String) × Nat) × List Effect) (b : String),
      sync_project_photos env p existing = Except.ok res →
      Effect.branchE b ∈ res.2 →
      b = get_branch_name p.project_name env.today) := by
  constructor
  · intro env st0 r sst name ps0 psF hrun hsaved h0 hF
    obtain ⟨-, -, -, hb, hc, -⟩ :=
      run_extends env st0 r sst hrun hsaved name ps0 psF h0 hF
    exact ⟨hb, hc⟩
  · intro env p existing res b hs hmem
    unfold sync_project_photos at hs
    cases hi : env.images p.id with
    | error e => rw [hi] at hs; exact absurd hs (by simp)
    | ok imgs =>
      rw [hi] at hs
      simp only at hs
      split at hs
      · injection hs with hh
        rw [← hh] at hmem
        simp at hmem
      · split at hs
        · injection hs with hh
          rw [← hh] at hmem
          simp at hmem
          exact hmem
        · split at hs
          · injection hs with hh
            rw [← hh] at hmem
            simp at hmem
            rcases hmem with hmem | hmem
            · exact hmem
            · obtain ⟨u, d, f, he⟩ := downloadLoop_effects env _ _ _ hmem
              exact Effect.noConfusion he
          · split at hs
            · injection hs with hh
              rw [← hh] at hmem
              simp at hmem
              rcases hmem with hmem | hmem
              · exact hmem
              · obtain ⟨u, d, f, he⟩ := downloadLoop_effects env _ _ _ hmem
                exact Effect.noConfusion he
            · exact Except.noConfusion hs

theorem c4_witness :
    (wPsNew.branch_name = wPsOld.branch_name ∧
      wPsNew.created_at = wPsOld.created_at) ∧
    "project/2025-02-02-proj-a" = get_branch_name "proj-a" "2025-02-02" :=
  ⟨c4_branch_stored_immutable_but_recomputed.1 wEnv wSt wRes
      ⟨[("proj-a", wPsNew)], some "T1"⟩ "proj-a" wPsOld wPsNew rfl rfl rfl rfl,
   c4_branch_stored_immutable_but_recomputed.2 wEnv wProj [] wSyncRes
      "project/2025-02-02-proj-a" rfl (by decide)⟩

/-- C1 counterexample: with projects [A, B] where A's commit raises, the run
does not catch the exception at the per-project boundary: it propagates out
of the whole run, project B is never processed and no state at all is saved
-- although the second conjunct shows the very same oracle processes B to
completion when A is absent, so B's failure to reach the saved state is
caused solely by A's exception. -/
theorem c1_counterexample :
    run c1env ⟨[], none⟩ =
      Except.error (Exc.general
        "CalledProcessError: git commit: Sync 1 new photos: proj-a") ∧
    run c1envB ⟨[], none⟩ = Except.ok c1resB :=
  ⟨rfl, rfl⟩

/-- C1 amended: only PermissionError from the optional issue-tracker calls
is caught per project; any other exception raised while processing one
project propagates immediately, aborting the loop before the remaining
projects are processed and before save_state is reached, so no project's
persisted state changes.  First conjunct: a failing project makes the whole
loop fail with that exception, siblings after it unprocessed.  Second
conjunct: a permission-denied issue creation is absorbed, the project is
tracked with no issue id and its sync still happens. -/
theorem c1_failure_not_isolated_amended :
    (∀ (env : Env) (st : SyncState) (cur : AList ProjectState) (p : Project)
       (rest : List Project) (e : Exc),
      process_project env st cur p = Except.error e →
      runGo env st cur (p :: rest) = Except.error e) ∧
    (∀ (env : Env) (st : SyncState) (cur : AList ProjectState) (p : Project)
       (m : String) (res : (List (Image × String) × Nat) × List Effect),
      alookup p.project_name st.projects = none →
      env.createIssue p.project_name = Except.error (Exc.permission m) →
      sync_project_photos env p [] = Except.ok res →
      ∃ st2 cur2 effs ps2,
        process_project env st cur p = Except.ok (st2, cur2, effs) ∧
        alookup p.project_name st2.projects = some ps2 ∧
        ps2.issue_number = none) := by
  constructor
  · intro env st cur p rest e h
    simp only [runGo, h]
  · intro env st cur p m res hl hc hsync
    obtain ⟨⟨new_images, total⟩, effs1⟩ := res
    refine
      ⟨{ st with
             projects := aupdate p.project_name
               (fun x => { x with images := recImages env new_images x.images })
               (ainsert p.project_name
                 { project_id := p.id, project_title := p.title,
                   issue_number := none,
                   branch_name := get_branch_name p.project_name env.today,
                   created_at := env.now, images := [] } st.projects) },
       ainsert p.project_name
         { project_id := p.id, project_title := p.title, issue_number := none,
           branch_name := get_branch_name p.project_name env.today,
           created_at := env.now, images := recImages env new_images [] } cur,
       [Effect.createIssueE p.project_name] ++ effs1 ++ [],
       { project_id := p.id, project_title := p.title, issue_number := none,
         branch_name := get_branch_name p.project_name env.today,
         created_at := env.now, images := recImages env new_images [] },
       ?_, ?_, rfl⟩
    · simp only [process_project, hl, hc, alookup_ainsert_self, hsync,
        alookup_aupdate_self, Option.map, issueTruthy, Bool.and_false,
        Bool.false_eq_true, if_false, List.append_nil, List.nil_append]
    · rw [alookup_aupdate_self, alookup_ainsert_self]
      rfl

theorem c1_witness :
    runGo c1env ⟨[], none⟩ [] [wProj, c1projB] =
      Except.error (Exc.general
        "CalledProcessError: git commit: Sync 1 new photos: proj-a") ∧
    (∃ st2 cur2 effs ps2,
      process_project wEnvPerm ⟨[], none⟩ [] wProj = Except.ok (st2, cur2, effs) ∧
      alookup "proj-a" st2.projects = some ps2 ∧
      ps2.issue_number = none) :=
  ⟨c1_failure_not_isolated_amended.1 c1env ⟨[], none⟩ [] wProj [c1projB] _ rfl,
   c1_failure_not_isolated_amended.2 wEnvPerm ⟨[], none⟩ [] wProj "403" wSyncRes
     rfl rfl rfl⟩

/-- C2 counterexample: a new image whose url is missing is skipped only at
download time, not in the state update: after the run its ImageRecord is in
the persisted images map even though no download and no commit happened. -/
theorem c2_counterexample :
    run c2env ⟨[], none⟩ = Except.ok c2res ∧
    alookup "proj-a" [("proj-a", c2ps)] = some c2ps ∧
    c2ps.images = [("h-i3", ⟨"i3", "tC", "003.jpg", "T1"⟩)] ∧
    c2res.effects.any isDownloadE = false ∧
    c2res.effects.any isCommitE = false :=
  ⟨rfl, rfl, rfl, rfl, rfl⟩

theorem ainsert_eq_append_of_not_mem {α : Type} {k : String} {l : AList α}
    (v : α) (h : k ∉ akeys l) : ainsert k v l = l ++ [(k, v)] := by
  have h2 := ainsert_append_left v ([] : AList α) h
  rw [List.append_nil] at h2
  exact h2

/-- With pairwise-distinct fingerprints that are all untracked, the
per-image state-update loop appends exactly one record per diff image, in
diff order. -/
theorem recImages_eq_append (env : Env) :
    ∀ (items : List (Image × String)) (l : AList ImageRecord),
    (∀ ih2, ih2 ∈ items → ih2.2 ∉ akeys l) → (items.map Prod.snd).Nodup →
    recImages env items l = l ++ items.map (fun ih => (ih.2, recordOf env ih.1)) := by
  intro items
  induction items with
  | nil => intro l _ _; simp [recImages]
  | cons hd tl ih =>
    intro l hdisj hnodup
    rw [recImages_cons,
      ainsert_eq_append_of_not_mem (recordOf env hd.1)
        (hdisj hd (List.mem_cons_self hd tl))]
    have hhd : hd.2 ∉ tl.map Prod.snd := by
      simp only [List.map_cons, List.nodup_cons] at hnodup
      exact hnodup.1
    rw [ih (l ++ [(hd.2, recordOf env hd.1)]) ?_ ?_]
    · simp
    · intro ih2 hih2
      simp only [akeys, List.map_append, List.mem_append, List.map_cons,
        List.map_nil, List.mem_singleton, not_or]
      refine ⟨by simpa [akeys] using hdisj ih2 (List.mem_cons_of_mem hd hih2), ?_⟩
      intro he
      exact hhd (he ▸ List.mem_map_of_mem Prod.snd hih2)
    · simp only [List.map_cons] at hnodup
      exact hnodup.of_cons

/-- When the branch switch succeeds, a successful sync returns the FULL
diff as its new_images, whatever the download outcomes were. -/
theorem sync_returns_full_diff (env : Env) (p : Project)
    (existing : AList ImageRecord) (imgs : List Image)
    (res : (List (Image × String) × Nat) × List Effect)
    (hi : env.images p.id = Except.ok imgs)
    (hb : env.branchOk (get_branch_name p.project_name env.today) = true)
    (h : sync_project_photos env p existing = Except.ok res) :
    res.1.1 = newImagesOf (imgs.map (fun i => (i, env.imageHash i))) (akeys existing) := by
  unfold sync_project_photos at h
  rw [hi] at h
  simp only at h
  split at h
  · rename_i hempty
    injection h with hh
    rw [← hh]
    exact (List.isEmpty_iff.mp hempty).symm
  · split at h
    · rename_i hbf
      rw [hb] at hbf
      exact Bool.noConfusion hbf
    · split at h
      · injection h with hh
        rw [← hh]
      · split at h
        · injection h with hh
          rw [← hh]
        · exact Except.noConfusion h

/-- C2 amended: for every run environment, prior state and project, once the
project's processing completes with the branch switch succeeding, the saved
entry's images map is the prior tracked map with one ImageRecord appended
for EVERY image of the diff, in diff order -- with no condition at all on
the download oracle, so images whose url is missing or whose download fails
are recorded exactly like the downloaded ones, also when another image of
the same diff downloads fine and the commit happens. -/
theorem c2_records_regardless_of_download_amended
    (env : Env) (st : SyncState) (cur : AList ProjectState) (p : Project)
    (imgs : List Image) (st2 : SyncState) (cur2 : AList ProjectState)
    (effs : List Effect) (existing : AList ImageRecord)
    (new_images : List (Image × String))
    (hi : env.images p.id = Except.ok imgs)
    (hex : existing = (match alookup p.project_name st.projects with
                       | some ps => ps.images
                       | none => []))
    (hnew : new_images =
      newImagesOf (imgs.map (fun i => (i, env.imageHash i))) (akeys existing))
    (hnodup : (new_images.map Prod.snd).Nodup)
    (hb : env.branchOk (get_branch_name p.project_name env.today) = true)
    (hok : process_project env st cur p = Except.ok (st2, cur2, effs)) :
    ∃ ps2, alookup p.project_name st2.projects = some ps2 ∧
      ps2.images = existing ++ new_images.map (fun ih => (ih.2, recordOf env ih.1)) := by
  simp only [process_project] at hok
  cases hl : alookup p.project_name st.projects with
  | some ps =>
    simp only [hl] at hok hex
    cases hs : sync_project_photos env p ps.images with
    | error e => rw [hs] at hok; exact absurd hok (by simp)
    | ok res =>
      obtain ⟨⟨new2, total⟩, effs1⟩ := res
      have hfull : new2 =
          newImagesOf (imgs.map (fun i => (i, env.imageHash i))) (akeys ps.images) :=
        sync_returns_full_diff env p ps.images imgs ((new2, total), effs1) hi hb hs
      rw [hex] at hnew
      rw [← hnew] at hfull
      subst new2
      rw [hs] at hok
      simp only [alookup_aupdate_self, hl, Option.map] at hok
      have hdisj : ∀ ih2, ih2 ∈ new_images → ih2.2 ∉ akeys ps.images := by
        intro ih2 hih2
        rw [hnew] at hih2
        simp only [newImagesOf, List.mem_filter, decide_eq_true_eq] at hih2
        exact hih2.2
      have happ := recImages_eq_append env new_images ps.images hdisj hnodup
      have hlook2 : alookup p.project_name
          (aupdate p.project_name
            (fun x => { x with images := recImages env new_images x.images })
            st.projects) =
          some { ps with images := recImages env new_images ps.images } := by
        rw [alookup_aupdate_self, hl]; rfl
      have himg : ({ ps with images := recImages env new_images ps.images }).images =
          existing ++ new_images.map (fun ih => (ih.2, recordOf env ih.1)) := by
        rw [hex]
        exact happ
      repeat' split at hok
      all_goals
        first
          | exact Except.noConfusion hok
          | (injection hok with hh
             injection hh with h1 hh2
             subst h1
             exact ⟨_, hlook2, himg⟩)
  | none =>
    simp only [hl] at hok hex
    cases hc : env.createIssue p.project_name with
    | ok n =>
      simp only [hc, alookup_ainsert_self] at hok
      cases hs : sync_project_photos env p [] with
      | error e => rw [hs] at hok; exact absurd hok (by simp)
      | ok res =>
        obtain ⟨⟨new2, total⟩, effs1⟩ := res
        have hfull : new2 =
            newImagesOf (imgs.map (fun i => (i, env.imageHash i))) (akeys []) :=
          sync_returns_full_diff env p [] imgs ((new2, total), effs1) hi hb hs
        rw [hex] at hnew
        rw [← hnew] at hfull
        subst new2
        rw [hs] at hok
        simp only [alookup_aupdate_self, alookup_ainsert_self, Option.map] at hok
        have happ := recImages_eq_append env new_images []
          (by intro ih2 _; simp [akeys]) hnodup
        have hlook2 : alookup p.project_name
            (aupdate p.project_name
              (fun x => { x with images := recImages env new_images x.images })
              (ainsert p.project_name
                { project_id := p.id, project_title := p.title,
                  issue_number := some n,
                  branch_name := get_branch_name p.project_name env.today,
                  created_at := env.now, images := [] } st.projects)) =
            some { project_id := p.id, project_title := p.title,
                   issue_number := some n,
                   branch_name := get_branch_name p.project_name env.today,
                   created_at := env.now,
                   images := recImages env new_images [] } := by
          rw [alookup_aupdate_self, alookup_ainsert_self]; rfl
        have himg : recImages env new_images [] =
            existing ++ new_images.map (fun ih => (ih.2, recordOf env ih.1)) := by
          rw [hex]
          exact happ
        repeat' split at hok
        all_goals
          first
            | exact Except.noConfusion hok
            | (injection hok with hh
               injection hh with h1 hh2
               subst h1
               exact ⟨_, hlook2, himg⟩)
    | error e =>
      cases e with
      | permission m =>
        simp only [hc, alookup_ainsert_self] at hok
        cases hs : sync_project_photos env p [] with
        | error e2 => rw [hs] at hok; exact absurd hok (by simp)
        | ok res =>
          obtain ⟨⟨new2, total⟩, effs1⟩ := res
          have hfull : new2 =
              newImagesOf (imgs.map (fun i => (i, env.imageHash i))) (akeys []) :=
            sync_returns_full_diff env p [] imgs ((new2, total), effs1) hi hb hs
          rw [hex] at hnew
          rw [← hnew] at hfull
          subst new2
          rw [hs] at hok
          simp only [alookup_aupdate_self, alookup_ainsert_self, Option.map] at hok
          have happ := recImages_eq_append env new_images []
            (by intro ih2 _; simp [akeys]) hnodup
          have hlook2 : alookup p.project_name
              (aupdate p.project_name
                (fun x => { x with images := recImages env new_images x.images })
                (ainsert p.project_name
                  { project_id := p.id, project_title := p.title,
                    issue_number := none,
                    branch_name := get_branch_name p.project_name env.today,
                    created_at := env.now, images := [] } st.projects)) =
              some { project_id := p.id, project_title := p.title,
                     issue_number := none,
                     branch_name := get_branch_name p.project_name env.today,
                     created_at := env.now,
                     images := recImages env new_images [] } := by
            rw [alookup_aupdate_self, alookup_ainsert_self]; rfl
          have himg : recImages env new_images [] =
              existing ++ new_images.map (fun ih => (ih.2, recordOf env ih.1)) := by
            rw [hex]
            exact happ
          repeat' split at hok
          all_goals
            first
              | exact Except.noConfusion hok
              | (injection hok with hh
                 injection hh with h1 hh2
                 subst h1
                 exact ⟨_, hlook2, himg⟩)
      | general m =>
        simp only [hc] at hok
        exact absurd hok (by simp)

theorem c2_witness :
    ∃ ps2, alookup "proj-a" c2wSt2.projects = some ps2 ∧
      ps2.images = [] ++ [(("h-i4" : String), recordOf c2wEnv c2wImgA),
        ("h-i5", recordOf c2wEnv c2wImgB)] :=
  c2_records_regardless_of_download_amended c2wEnv ⟨[], none⟩ [] wProj
    [c2wImgA, c2wImgB] c2wSt2 c2wCur2 c2wEffs []
    [(c2wImgA, "h-i4"), (c2wImgB, "h-i5")]
    rfl rfl rfl (by decide) rfl rfl

theorem c9_witness :
    ([Effect.listImagesE "pidA"].all (fun e => !(isSideOp e))) = true :=
  c9_diff_exact_and_empty_noop.2 wEnv c9St [] wProj [wImg] c9St
    [("proj-a", wPsNew)] [Effect.listImagesE "pidA"] rfl rfl rfl

end Nordhus
